import Mathlib

/-!
Verification of the Note Store of `golang_microservices_course_balun`
(week_1): the data model (`NoteInfo`, `Note`), the HTTP handlers
`createNoteHandler` and `getNoteHandler` from
`week_1/http/cmd/http_server/main.go`, and the Update/Delete/List store
operations whose wire schema is declared in the gRPC proto file but whose
server implementation is absent from the repository (those are modelled
from the spec, as marked on each definition).

Machine integers (`int64`) are modelled as `Int`; timestamps
(`time.Time`, obtained from a monotonic wall clock) as `Nat`.
-/

/-- `NoteInfo` from the Go source: the mutable content payload of a Note. -/
structure NoteInfo where
  title : String
  context : String
  author : String
  isPublic : Bool
deriving DecidableEq, Repr

/-- `Note` from the Go source: id, embedded info, and the two timestamps. -/
structure Note where
  id : Int
  info : NoteInfo
  createdAt : Nat
  updatedAt : Nat
deriving DecidableEq, Repr

/-- The Go store is `map[int64]*Note`.  We embed it as an association list
in insertion order (the spec mandates insertion order for `List`); lookup
is by the `id` field. -/
abbrev Store := List Note

/-- Lookup `notes.elems[id]` of the Go map. -/
def findNote (s : Store) (id : Int) : Option Note :=
  s.find? (fun n => n.id == id)

/-- Go map assignment `notes.elems[note.ID] = note`: replaces an existing
entry with the same key in place, otherwise appends. -/
def mapInsert (s : Store) (n : Note) : Store :=
  if (findNote s n.id).isSome then
    s.map (fun m => if m.id == n.id then n else m)
  else
    s ++ [n]

/-- The part of an `http.ResponseWriter` interaction the handlers decide:
the first status code written and the JSON body (the encoded Note, when
one was encoded). -/
structure HandlerResponse where
  status : Nat
  body : Option Note
deriving DecidableEq, Repr

/-- `createNoteHandler` from `http_server/main.go`.  Inputs that in Go come
from the outside world are parameters: `decoded` is the result of
`json.NewDecoder(r.Body).Decode(info)` (`none` = decode error), `drawnId`
is the value returned by `rand.Int63()`, `now` is `time.Now()`, and
`encodeOk` says whether `json.NewEncoder(w).Encode(note)` succeeds.
The control flow mirrors the source: decode failure returns 400 at once;
otherwise the 201 header is written, the note is encoded, and only after a
successful encode is the note inserted into the map (an encode failure
returns with the store untouched, the 201 header already committed). -/
def createNoteHandler (s : Store) (decoded : Option NoteInfo) (drawnId : Int)
    (now : Nat) (encodeOk : Bool) : HandlerResponse × Store :=
  match decoded with
  | none => ({ status := 400, body := none }, s)
  | some info =>
    let note : Note :=
      { id := drawnId, info := info, createdAt := now, updatedAt := now }
    if encodeOk then
      ({ status := 201, body := some note }, mapInsert s note)
    else
      ({ status := 201, body := none }, s)

/-- `getNoteHandler` from `http_server/main.go`, after `parseNoteID`
succeeded: looks the id up under the read lock, answers 404 when the id is
absent, otherwise encodes the note (500 on encode failure, with the note
body never written).  The handler never mutates the store. -/
def getNoteHandler (s : Store) (id : Int) (encodeOk : Bool) : HandlerResponse :=
  match findNote s id with
  | none => { status := 404, body := none }
  | some note =>
    if encodeOk then { status := 200, body := some note }
    else { status := 500, body := none }

/-- The wire type `UpdateNoteInfo` of the proto schema
(`week_1/grpc/api/note_v1/note.proto`): each patchable field is a nullable
wrapper (`google.protobuf.StringValue` / `BoolValue`), so `none` means
"field absent, do not touch" and `some v` means "set to `v`". -/
structure UpdateNoteInfo where
  title : Option String
  context : Option String
  author : Option String
  isPublic : Option Bool
deriving DecidableEq, Repr

/-- The Store error taxonomy of the spec (§7). -/
inductive StoreError where
  | notFound
  | identifierExhausted
deriving DecidableEq, Repr

/-- Modelled from the spec: the patch-application algorithm of `Update`
(§4.1) — no server implementation of Update exists in the repository, only
the proto declaration.  For each field, `present(value)` overwrites and
`absent` leaves the stored field untouched. -/
def applyPatch (patch : UpdateNoteInfo) (info : NoteInfo) : NoteInfo :=
  { title := patch.title.getD info.title,
    context := patch.context.getD info.context,
    author := patch.author.getD info.author,
    isPublic := patch.isPublic.getD info.isPublic }

/-- Modelled from the spec: `Update(id, patch)` (§4.1) — fails with
`NotFound` when the id is absent, otherwise applies the patch, always sets
`updatedAt = now()`, stores the mutated Note under the same id, and
returns the post-mutation Note. -/
def updateNote (s : Store) (id : Int) (patch : UpdateNoteInfo) (now : Nat) :
    Except StoreError (Note × Store) :=
  match findNote s id with
  | none => .error .notFound
  | some note =>
    let note' : Note :=
      { note with info := applyPatch patch note.info, updatedAt := now }
    .ok (note', s.map (fun m => if m.id == id then note' else m))

/-- Modelled from the spec: `Delete(id)` (§4.1) — fails with `NotFound`
when the id is absent, otherwise removes the Note permanently. -/
def deleteNote (s : Store) (id : Int) : Except StoreError Store :=
  if (findNote s id).isSome then
    .ok (s.filter (fun m => !(m.id == id)))
  else
    .error .notFound

/-- Modelled from the spec: `List(limit, offset)` (§4.1) — Notes in
insertion order, `offset` items skipped from the start, at most `limit`
items returned; negative or zero `limit` returns nothing (the spec's
conservative reading), out-of-range `offset` yields `[]`. -/
def listNotes (s : Store) (limit offset : Int) : List Note :=
  (s.drop offset.toNat).take limit.toNat

/-- Modelled from the spec: `Create(info)` (§4.1) with the collision
policy the spec mandates (and the source omits): `draws` is the stream of
candidate ids supplied by the random generator; a draw colliding with an
existing key is re-drawn rather than overwriting, and an exhausted stream
reports `IdentifierExhausted`. -/
def createNote (s : Store) (info : NoteInfo) (now : Nat) :
    List Int → Except StoreError (Note × Store)
  | [] => .error .identifierExhausted
  | d :: rest =>
    if (findNote s d).isSome then
      createNote s info now rest
    else
      let note : Note := { id := d, info := info, createdAt := now, updatedAt := now }
      .ok (note, s ++ [note])

/-- The field-wise contract of a patch (spec §4.1): every `present(v)`
entry overwrites the field with `v`, every `absent` entry leaves the prior
value untouched. -/
def PatchRespects (patch : UpdateNoteInfo) (old new : NoteInfo) : Prop :=
  (∀ v, patch.title = some v → new.title = v) ∧
  (patch.title = none → new.title = old.title) ∧
  (∀ v, patch.context = some v → new.context = v) ∧
  (patch.context = none → new.context = old.context) ∧
  (∀ v, patch.author = some v → new.author = v) ∧
  (patch.author = none → new.author = old.author) ∧
  (∀ v, patch.isPublic = some v → new.isPublic = v) ∧
  (patch.isPublic = none → new.isPublic = old.isPublic)

/-- Sample payload, the example of spec §8. -/
def infoA : NoteInfo := { title := "A", context := "B", author := "C", isPublic := true }

/-- A second, distinct sample payload. -/
def infoZ : NoteInfo := { title := "Z", context := "Y", author := "X", isPublic := false }

/-- A sample stored Note with id 5. -/
def noteA5 : Note := { id := 5, info := infoA, createdAt := 1, updatedAt := 1 }

/-- A sample stored Note with id 6. -/
def noteB6 : Note := { id := 6, info := infoZ, createdAt := 2, updatedAt := 2 }

/-- A sample stored Note with id 7. -/
def noteC7 : Note := { id := 7, info := infoA, createdAt := 3, updatedAt := 3 }

/-- The result of patching `noteA5` with only `isPublic = present(false)`
at time 3. -/
def noteA5Upd : Note :=
  { id := 5,
    info := { title := "A", context := "B", author := "C", isPublic := false },
    createdAt := 1, updatedAt := 3 }

/-- A patch whose only present entry is `isPublic = present(false)`. -/
def patchPubFalse : UpdateNoteInfo :=
  { title := none, context := none, author := none, isPublic := some false }

/-- The all-fields-absent patch. -/
def patchAbsent : UpdateNoteInfo :=
  { title := none, context := none, author := none, isPublic := none }

/-! ### Helper lemmas about lookup, insertion and replacement -/

/-- A successful lookup returns a Note bearing the looked-up id. -/
theorem findNote_id {s : Store} {i : Int} {n : Note} (h : findNote s i = some n) :
    n.id = i := by
  have := List.find?_some h
  simpa using this

/-- A successful lookup returns a member of the store. -/
theorem mem_of_findNote {s : Store} {i : Int} {n : Note} (h : findNote s i = some n) :
    n ∈ s :=
  List.mem_of_find?_eq_some h

/-- Lookup fails exactly when no member bears the id. -/
theorem findNote_eq_none_iff {s : Store} {i : Int} :
    findNote s i = none ↔ ∀ n ∈ s, n.id ≠ i := by
  simp [findNote, List.find?_eq_none]

/-- Appending a fresh Note makes it findable under its id. -/
theorem findNote_append_one {s : Store} {n : Note} (h : findNote s n.id = none) :
    findNote (s ++ [n]) n.id = some n := by
  unfold findNote at h ⊢
  rw [List.find?_append, h]
  simp

/-- Replacing the entry with id `i` by `n` (with `n.id = i`) makes `n` the
result of looking up `i`, provided the id was present. -/
theorem findNote_replace_self {s : Store} {i : Int} {n : Note} (hn : n.id = i)
    (hs : (findNote s i).isSome) :
    findNote (s.map fun m => if m.id == i then n else m) i = some n := by
  induction s with
  | nil => simp [findNote] at hs
  | cons m t ih =>
    by_cases hm : m.id = i
    · simp [findNote, hm, hn]
    · unfold findNote at hs ⊢
      rw [List.map_cons, if_neg (by simp [hm])]
      rw [List.find?_cons_of_neg _ (by simp [hm])] at hs ⊢
      exact ih hs

/-- Go map assignment makes the assigned Note findable under its key. -/
theorem findNote_mapInsert_self (s : Store) (n : Note) :
    findNote (mapInsert s n) n.id = some n := by
  unfold mapInsert
  by_cases h : (findNote s n.id).isSome
  · rw [if_pos h]
    exact findNote_replace_self rfl h
  · rw [if_neg h]
    exact findNote_append_one (Option.not_isSome_iff_eq_none.mp h)

/-- Membership after an id-targeted replacement: the new Note or an old member. -/
theorem mem_map_replace {s : Store} {i : Int} {n x : Note}
    (h : x ∈ s.map fun m => if m.id == i then n else m) : x = n ∨ x ∈ s := by
  obtain ⟨m, hm, hx⟩ := List.mem_map.mp h
  by_cases hmi : (m.id == i) = true
  · left
    rw [← hx, if_pos hmi]
  · right
    rw [← hx, if_neg hmi]
    exact hm

/-- Membership after a Go map assignment: the assigned Note or an old member. -/
theorem mem_mapInsert {s : Store} {n x : Note} (h : x ∈ mapInsert s n) :
    x = n ∨ x ∈ s := by
  unfold mapInsert at h
  by_cases hs : (findNote s n.id).isSome
  · rw [if_pos hs] at h
    exact mem_map_replace h
  · rw [if_neg hs] at h
    rcases List.mem_append.mp h with h1 | h2
    · right
      exact h1
    · left
      simpa using h2

/-- Inversion of a successful spec-modelled Create: the fresh Note carries
both timestamps at `now` and is appended under an id that was unused. -/
theorem createNote_ok {s : Store} {info : NoteInfo} {t : Nat} {draws : List Int}
    {note : Note} {s' : Store} (h : createNote s info t draws = .ok (note, s')) :
    note.createdAt = t ∧ note.updatedAt = t ∧ s' = s ++ [note] ∧
      findNote s note.id = none := by
  induction draws with
  | nil => simp [createNote] at h
  | cons d rest ih =>
    unfold createNote at h
    by_cases hd : (findNote s d).isSome
    · rw [if_pos hd] at h
      exact ih h
    · rw [if_neg hd] at h
      simp only [Except.ok.injEq, Prod.mk.injEq] at h
      obtain ⟨hn, hs⟩ := h
      subst hn
      subst hs
      exact ⟨rfl, rfl, rfl, Option.not_isSome_iff_eq_none.mp hd⟩

/-- Inversion of a successful Update: the returned Note keeps the old
`createdAt`, gets `updatedAt = now`, and replaces the old entry. -/
theorem updateNote_ok {s : Store} {i : Int} {p : UpdateNoteInfo} {t : Nat}
    {note : Note} {s' : Store} (h : updateNote s i p t = .ok (note, s')) :
    ∃ old, findNote s i = some old ∧ note.createdAt = old.createdAt ∧
      note.updatedAt = t ∧ note.id = old.id ∧
      s' = s.map fun m => if m.id == i then note else m := by
  unfold updateNote at h
  cases hf : findNote s i with
  | none => rw [hf] at h; simp at h
  | some old =>
    rw [hf] at h
    simp only [Except.ok.injEq, Prod.mk.injEq] at h
    obtain ⟨hn, hs⟩ := h
    subst hn
    subst hs
    exact ⟨old, rfl, rfl, rfl, rfl, rfl⟩

/-- Inversion of a successful Delete: the result is the store filtered of
the deleted id. -/
theorem deleteNote_ok {s : Store} {i : Int} {s' : Store}
    (h : deleteNote s i = .ok s') :
    s' = s.filter fun m => !(m.id == i) := by
  unfold deleteNote at h
  by_cases hs : (findNote s i).isSome
  · rw [if_pos hs] at h
    simpa using h.symm
  · rw [if_neg hs] at h
    simp at h

/-! ### Reachable store states (for the timestamp invariant) -/

/-- A store together with the last timestamp handed out by the monotonic
wall clock (spec §4.2: timestamps come from a monotonic source). -/
structure StoreState where
  store : Store
  clock : Nat

/-- One Store operation, fired at a time `t` no earlier than the clock:
the code's `createNoteHandler` (any decode/draw/encode outcome), or a
successful spec-modelled Create, Update or Delete.  `getNoteHandler`,
`listNotes` and failing operations leave the store unchanged, so they are
covered by the handler/identity cases. -/
inductive Step : StoreState → StoreState → Prop where
  | handlerCreate (σ : StoreState) (decoded : Option NoteInfo) (d : Int)
      (t : Nat) (eOk : Bool) (ht : σ.clock ≤ t) :
      Step σ ⟨(createNoteHandler σ.store decoded d t eOk).2, t⟩
  | specCreate (σ : StoreState) (info : NoteInfo) (t : Nat) (draws : List Int)
      (note : Note) (s' : Store) (ht : σ.clock ≤ t)
      (h : createNote σ.store info t draws = .ok (note, s')) :
      Step σ ⟨s', t⟩
  | update (σ : StoreState) (i : Int) (p : UpdateNoteInfo) (t : Nat)
      (note : Note) (s' : Store) (ht : σ.clock ≤ t)
      (h : updateNote σ.store i p t = .ok (note, s')) :
      Step σ ⟨s', t⟩
  | delete (σ : StoreState) (i : Int) (s' : Store)
      (h : deleteNote σ.store i = .ok s') :
      Step σ ⟨s', σ.clock⟩

/-- States reachable from the empty store at clock 0. -/
inductive Reachable : StoreState → Prop where
  | init : Reachable ⟨[], 0⟩
  | step {σ σ' : StoreState} : Reachable σ → Step σ σ' → Reachable σ'

/-- The inductive invariant: every stored Note has `createdAt ≤ updatedAt`
and was last touched no later than the clock. -/
def StoreInv (σ : StoreState) : Prop :=
  ∀ n ∈ σ.store, n.createdAt ≤ n.updatedAt ∧ n.updatedAt ≤ σ.clock

theorem storeInv_step {σ σ' : StoreState} (hσ : StoreInv σ) (h : Step σ σ') : StoreInv σ' := by
  cases h with
  | handlerCreate decoded d t eOk ht =>
    intro n hn
    cases decoded with
    | none =>
      simp only [createNoteHandler] at hn
      exact ⟨(hσ n hn).1, le_trans (hσ n hn).2 ht⟩
    | some info =>
      cases eOk with
      | false =>
        simp only [createNoteHandler] at hn
        exact ⟨(hσ n hn).1, le_trans (hσ n hn).2 ht⟩
      | true =>
        simp only [createNoteHandler] at hn
        rcases mem_mapInsert hn with rfl | hmem
        · exact ⟨le_refl t, le_refl t⟩
        · exact ⟨(hσ n hmem).1, le_trans (hσ n hmem).2 ht⟩
  | specCreate info t draws note s' ht h =>
    intro n hn
    obtain ⟨hc, hu, hs, _⟩ := createNote_ok h
    subst hs
    rcases List.mem_append.mp hn with hmem | hmem
    · exact ⟨(hσ n hmem).1, le_trans (hσ n hmem).2 ht⟩
    · have : n = note := by simpa using hmem
      subst this
      rw [hc, hu]
      exact ⟨le_refl t, le_refl t⟩
  | update i p t note s' ht h =>
    intro n hn
    obtain ⟨old, hold, hc, hu, _, hs⟩ := updateNote_ok h
    subst hs
    rcases mem_map_replace hn with rfl | hmem
    · refine ⟨?_, by rw [hu]⟩
      have hmold := hσ old (mem_of_findNote hold)
      rw [hc, hu]
      exact le_trans hmold.1 (le_trans hmold.2 ht)
    · exact ⟨(hσ n hmem).1, le_trans (hσ n hmem).2 ht⟩
  | delete i s' h =>
    intro n hn
    have hs := deleteNote_ok h
    subst hs
    have hmem := (List.mem_filter.mp hn).1
    exact hσ n hmem

theorem storeInv_reachable {σ : StoreState} (h : Reachable σ) : StoreInv σ := by
  induction h with
  | init =>
    intro n hn
    simp at hn
  | step _ hs ih => exact storeInv_step ih hs

/-! ### The claims -/

/-- C1: the claim says a Create whose randomly drawn id collides with an
existing key re-draws rather than overwriting the existing Note.  The
source's `createNoteHandler` draws `rand.Int63()` once and assigns into
the map with no collision check, so on a store already holding a Note
with id 5 and a colliding draw of 5 the existing Note is silently
overwritten and the id is handed out a second time — the code contradicts
the spec's stated intent (the spec itself calls this omission a source
defect to correct). -/
theorem c1_create_overwrites_on_collision :
    (createNoteHandler [noteA5] (some infoZ) 5 2 true).1.body =
      some { id := 5, info := infoZ, createdAt := 2, updatedAt := 2 } ∧
    (createNoteHandler [noteA5] (some infoZ) 5 2 true).2 =
      [{ id := 5, info := infoZ, createdAt := 2, updatedAt := 2 }] :=
  ⟨rfl, rfl⟩

/-- C3: Get after Create round-trips — the Note encoded by a successful
`createNoteHandler` call is found by `getNoteHandler` under its id, with
`info` equal to the decoded request payload field-for-field. -/
theorem c3_get_after_create_roundtrip (s : Store) (info : NoteInfo) (d : Int)
    (now : Nat) :
    ∃ note : Note,
      (createNoteHandler s (some info) d now true).1.body = some note ∧
      getNoteHandler (createNoteHandler s (some info) d now true).2 note.id true =
        { status := 200, body := some note } ∧
      note.info = info := by
  refine ⟨{ id := d, info := info, createdAt := now, updatedAt := now }, rfl, ?_, rfl⟩
  have h : findNote (createNoteHandler s (some info) d now true).2 d =
      some { id := d, info := info, createdAt := now, updatedAt := now } :=
    findNote_mapInsert_self s _
  simp [getNoteHandler, h]

/-- C8: error outcomes are all-or-nothing — a Create whose request body
fails to decode answers 400 and inserts nothing, a Create whose response
encoding fails leaves the store unchanged, and Update/Delete on an absent
id report NotFound without producing any mutated store. -/
theorem c8_errors_leave_store_unchanged (s : Store) (d i : Int)
    (info : NoteInfo) (patch : UpdateNoteInfo) (now : Nat) (eOk : Bool) :
    createNoteHandler s none d now eOk = ({ status := 400, body := none }, s) ∧
    (createNoteHandler s (some info) d now false).2 = s ∧
    (findNote s i = none →
      updateNote s i patch now = .error .notFound ∧
      deleteNote s i = .error .notFound) := by
  refine ⟨rfl, rfl, fun h => ⟨?_, ?_⟩⟩
  · unfold updateNote
    rw [h]
  · unfold deleteNote
    rw [h]
    rfl

/-- C8 witness at concrete inputs: a decode failure and an encode failure
leave the one-Note store exactly as it was, and Update/Delete on the
absent id 6 report NotFound. -/
theorem c8_errors_leave_store_unchanged_witness :
    createNoteHandler [noteA5] none 9 9 true = ({ status := 400, body := none }, [noteA5]) ∧
    (createNoteHandler [noteA5] (some infoZ) 9 9 false).2 = [noteA5] ∧
    (updateNote [noteA5] 6 patchAbsent 9 = .error .notFound ∧
      deleteNote [noteA5] 6 = .error .notFound) := by
  have h := c8_errors_leave_store_unchanged [noteA5] 9 6 infoZ patchAbsent 9 true
  exact ⟨h.1, h.2.1, h.2.2 rfl⟩

/-- C10: in `createNoteHandler` the new Note reaches the map only after
the response body was successfully encoded — on an encode failure the
handler returns with the store untouched while the 201 status was already
committed, and only on a successful encode is the Note inserted. -/
theorem c10_insert_only_after_encode (s : Store) (info : NoteInfo) (d : Int)
    (now : Nat) :
    (createNoteHandler s (some info) d now false).1.status = 201 ∧
    (createNoteHandler s (some info) d now false).2 = s ∧
    (createNoteHandler s (some info) d now true).2 =
      mapInsert s { id := d, info := info, createdAt := now, updatedAt := now } :=
  ⟨rfl, rfl, rfl⟩

/-- Helper: `applyPatch` satisfies the field-wise patch contract. -/
theorem patchRespects_applyPatch (patch : UpdateNoteInfo) (info : NoteInfo) :
    PatchRespects patch info (applyPatch patch info) := by
  refine ⟨fun v hv => ?_, fun hv => ?_, fun v hv => ?_, fun hv => ?_,
    fun v hv => ?_, fun hv => ?_, fun v hv => ?_, fun hv => ?_⟩ <;>
    simp [applyPatch, hv]

/-- C2: whenever `Update(id, patch)` succeeds on a stored Note, every field
whose patch entry is `present(value)` is overwritten with `value` and every
field whose entry is `absent` keeps the prior value — in particular a patch
with `isPublic = present(false)` yields `isPublic = false` while a patch
with `isPublic` absent leaves a prior `isPublic = true` unchanged. -/
theorem c2_update_patch_field_semantics (s : Store) (i : Int)
    (patch : UpdateNoteInfo) (now : Nat) (old note : Note) (s' : Store)
    (h : findNote s i = some old)
    (hu : updateNote s i patch now = .ok (note, s')) :
    PatchRespects patch old.info note.info := by
  unfold updateNote at hu
  rw [h] at hu
  simp only [Except.ok.injEq, Prod.mk.injEq] at hu
  obtain ⟨hn, -⟩ := hu
  subst hn
  exact patchRespects_applyPatch patch old.info

/-- C2 witness: patching the stored `noteA5` (whose `isPublic` is `true`)
with only `isPublic = present(false)` yields a Note whose `isPublic` is
`false` and whose other three fields are unchanged. -/
theorem c2_update_patch_field_semantics_witness :
    PatchRespects patchPubFalse noteA5.info noteA5Upd.info :=
  c2_update_patch_field_semantics [noteA5] 5 patchPubFalse 3 noteA5 noteA5Upd
    [noteA5Upd] rfl rfl

/-- C4: in every reachable store state — reachable by any sequence of
handler Creates, spec-modelled Creates, Updates and Deletes fired at
monotonically non-decreasing times — every stored Note satisfies
`createdAt ≤ updatedAt`: Create stamps both with the same `now` and no
operation ever pushes `updatedAt` below `createdAt`. -/
theorem c4_updatedAt_ge_createdAt (σ : StoreState) (n : Note)
    (h : Reachable σ) (hn : n ∈ σ.store) : n.createdAt ≤ n.updatedAt :=
  (storeInv_reachable h n hn).1

/-- C4 witness: the Note stored by a concrete handler Create at time 7 in
a reachable state satisfies the invariant. -/
theorem c4_updatedAt_ge_createdAt_witness :
    ({ id := 5, info := infoA, createdAt := 7, updatedAt := 7 } : Note).createdAt ≤
      ({ id := 5, info := infoA, createdAt := 7, updatedAt := 7 } : Note).updatedAt :=
  c4_updatedAt_ge_createdAt
    ⟨[{ id := 5, info := infoA, createdAt := 7, updatedAt := 7 }], 7⟩
    { id := 5, info := infoA, createdAt := 7, updatedAt := 7 }
    (Reachable.step Reachable.init
      (Step.handlerCreate ⟨[], 0⟩ (some infoA) 5 7 true (Nat.zero_le 7)))
    (List.mem_singleton_self _)

/-- C5: a successful `Update(id, patch)` — for any patch, including the
all-fields-absent one — sets the Note's `updatedAt` to `now` and returns
exactly the Note that is now stored under the id, while an Update on an
absent id fails with NotFound. -/
theorem c5_update_refreshes_updatedAt (s : Store) (i : Int)
    (patch : UpdateNoteInfo) (now : Nat) :
    (findNote s i = none → updateNote s i patch now = .error .notFound) ∧
    (∀ old, findNote s i = some old →
      ∃ note s', updateNote s i patch now = .ok (note, s') ∧
        note.updatedAt = now ∧ findNote s' i = some note) := by
  constructor
  · intro h
    unfold updateNote
    rw [h]
  · intro old h
    have he : updateNote s i patch now =
        .ok ({ old with info := applyPatch patch old.info, updatedAt := now },
          s.map fun m => if m.id == i then
            { old with info := applyPatch patch old.info, updatedAt := now }
          else m) := by
      unfold updateNote
      rw [h]
    refine ⟨_, _, he, rfl, ?_⟩
    have hid : ({ old with info := applyPatch patch old.info, updatedAt := now } : Note).id = i :=
      @findNote_id s i old h
    exact findNote_replace_self hid (by rw [h]; rfl)

/-- C5 witness: updating the empty store reports NotFound, and updating
the stored `noteA5` with the all-fields-absent patch at time 9 still
refreshes `updatedAt` to 9 and returns the Note now stored under id 5. -/
theorem c5_update_refreshes_updatedAt_witness :
    updateNote [] 5 patchAbsent 9 = .error .notFound ∧
    ∃ note s', updateNote [noteA5] 5 patchAbsent 9 = .ok (note, s') ∧
      note.updatedAt = 9 ∧ findNote s' 5 = some note :=
  ⟨(c5_update_refreshes_updatedAt [] 5 patchAbsent 9).1 rfl,
   (c5_update_refreshes_updatedAt [noteA5] 5 patchAbsent 9).2 noteA5 rfl⟩

/-- C6: `getNoteHandler` answers 404 exactly when no Note with the id is
stored, and Delete is terminal — after a successful Delete the id is gone,
a Get answers 404, and a second Delete reports NotFound rather than
succeeding as a no-op. -/
theorem c6_notfound_and_delete_terminal (s : Store) (i : Int) (eOk : Bool) :
    ((getNoteHandler s i eOk).status = 404 ↔ findNote s i = none) ∧
    (∀ s', deleteNote s i = .ok s' →
      findNote s' i = none ∧
      (getNoteHandler s' i eOk).status = 404 ∧
      deleteNote s' i = .error .notFound) := by
  have key : ∀ t : Store, findNote t i = none →
      (getNoteHandler t i eOk).status = 404 := by
    intro t ht
    simp [getNoteHandler, ht]
  constructor
  · constructor
    · intro h404
      cases hf : findNote s i with
      | none => rfl
      | some note =>
        exfalso
        rw [getNoteHandler, hf] at h404
        cases eOk with
        | false => exact absurd h404 (by simp)
        | true => exact absurd h404 (by simp)
    · intro h
      exact key s h
  · intro s' h
    have hs := deleteNote_ok h
    have hnone : findNote s' i = none := by
      subst hs
      rw [findNote_eq_none_iff]
      intro n hn
      have hp := (List.mem_filter.mp hn).2
      simpa using hp
    refine ⟨hnone, key s' hnone, ?_⟩
    unfold deleteNote
    rw [hnone]
    rfl

/-- C6 witness: deleting the only Note of a one-Note store empties it;
afterwards Get answers 404 and a second Delete reports NotFound. -/
theorem c6_notfound_and_delete_terminal_witness :
    findNote ([] : Store) 5 = none ∧
    (getNoteHandler ([] : Store) 5 true).status = 404 ∧
    deleteNote ([] : Store) 5 = .error .notFound :=
  (c6_notfound_and_delete_terminal [noteA5] 5 true).2 [] rfl

/-- C7: `List(limit, offset)` returns the stored Notes in insertion order
(an order-preserving sublist of the store), skips the first `offset`
items (item `i` of the result is item `offset + i` of the store), returns
at most `limit` items, yields `[]` — not an error — whenever `offset` is
at least the store's count, and on a three-Note store `[a, b, c]` the call
`List(limit := 1, offset := 1)` returns exactly `[b]`. -/
theorem c7_list_order_offset_limit (s : Store) (limit offset : Int)
    (a b c : Note) :
    List.Sublist (listNotes s limit offset) s ∧
    (listNotes s limit offset).length ≤ limit.toNat ∧
    (∀ i, i < limit.toNat → 0 ≤ offset →
      (listNotes s limit offset)[i]? = s[offset.toNat + i]?) ∧
    ((s.length : Int) ≤ offset → listNotes s limit offset = []) ∧
    listNotes [a, b, c] 1 1 = [b] := by
  refine ⟨?_, ?_, ?_, ?_, rfl⟩
  · exact (List.take_sublist _ _).trans (List.drop_sublist _ _)
  · show ((s.drop offset.toNat).take limit.toNat).length ≤ limit.toNat
    rw [List.length_take]
    exact inf_le_left
  · intro i hi _
    show ((s.drop offset.toNat).take limit.toNat)[i]? = s[offset.toNat + i]?
    rw [List.getElem?_take_of_lt hi, List.getElem?_drop]
  · intro h
    have hlen : s.length ≤ offset.toNat := by omega
    show ((s.drop offset.toNat).take limit.toNat) = []
    rw [List.drop_eq_nil_of_le hlen, List.take_nil]

/-- C7 witness: on the three-Note store `[noteA5, noteB6, noteC7]` created
in that order, `List(1, 1)` returns exactly the second Note, item 0 of the
result is item 1 of the store, and `List(10, 5)` returns `[]`. -/
theorem c7_list_order_offset_limit_witness :
    listNotes [noteA5, noteB6, noteC7] 1 1 = [noteB6] ∧
    (listNotes [noteA5, noteB6, noteC7] 1 1)[0]? = [noteA5, noteB6, noteC7][1]? ∧
    listNotes [noteA5, noteB6, noteC7] 10 5 = [] := by
  refine ⟨?_, ?_, ?_⟩
  · exact (c7_list_order_offset_limit [noteA5, noteB6, noteC7] 1 1
      noteA5 noteB6 noteC7).2.2.2.2
  · exact (c7_list_order_offset_limit [noteA5, noteB6, noteC7] 1 1
      noteA5 noteB6 noteC7).2.2.1 0 (by decide) (by decide)
  · exact (c7_list_order_offset_limit [noteA5, noteB6, noteC7] 10 5
      noteA5 noteB6 noteC7).2.2.2.1 (by decide)
